import Mathlib

/-!
Verification of the deterministic card-draw engine (mulberry32 generator,
seeded Fisher-Yates shuffle, draw state machine, and card filter).

The definitions below are a shallow embedding of the engine's source.
JavaScript 32-bit integer values are represented by their unsigned bit
pattern, a `Nat` strictly below `2 ^ 32`; every coercing operation
(`| 0`, `Math.imul`, `>>> 0`, additive wraparound) becomes an explicit
`% 4294967296`.  The floating-point value returned by the generator is
`v / 2 ^ 32` for an integer numerator `v`; the shuffle only uses it in
`Math.floor(rng() * (i + 1))`, embedded as natural division
`v * (i + 1) / 2 ^ 32`, which is exact for every list short enough that
`v * (i + 1)` stays below `2 ^ 53`.
-/

/-- Modulus of JavaScript 32-bit integer coercions, `2 ^ 32`. -/
def U32 : Nat := 4294967296

/-- One call of the closure returned by `mulberry32`.  The argument is the
unsigned bit pattern of the captured variable `s`; the result pairs the
numerator of the produced value (the float returned is this numerator
divided by `4294967296`) with the updated bit pattern of `s`. -/
def mulberryNext (s : Nat) : Nat × Nat :=
  let s1 := (s + 0x6d2b79f5) % U32
  let t1 := ((s1 ^^^ (s1 >>> 15)) * (1 ||| s1)) % U32
  let t2 := ((t1 + ((t1 ^^^ (t1 >>> 7)) * (61 ||| t1)) % U32) % U32) ^^^ t1
  (t2 ^^^ (t2 >>> 14), s1)

/-- Bit pattern produced by the `seed | 0` coercion of `mulberry32` for an
integer seed. -/
def toUint32 (n : Int) : Nat := (n % (U32 : Int)).toNat

/-- Numerators of the first `n` values produced by the generator started in
state `s`. -/
def mulberryStream (s : Nat) : Nat → List Nat
  | 0 => []
  | n + 1 => (mulberryNext s).1 :: mulberryStream (mulberryNext s).2 n

/-- The destructuring swap `[arr[i], arr[j]] = [arr[j], arr[i]]` of the
shuffle loop: exchange the elements at positions `i` and `j` when both are
in bounds. -/
def listSwap (l : List α) (i j : Nat) : List α :=
  match l[i]?, l[j]? with
  | some a, some b => (l.set i b).set j a
  | _, _ => l

/-- Loop of `seededShuffle`: the counter is the loop variable `i`, running
from `length - 1` down to `1`; each iteration draws one generator value,
computes `j = floor(rng() * (i + 1))` and swaps positions `i` and `j`. -/
def fyLoop : List α → Nat → Nat → List α
  | l, _, 0 => l
  | l, s, Nat.succ k =>
    fyLoop (listSwap l (k + 1) ((mulberryNext s).1 * (k + 2) / U32))
      (mulberryNext s).2 k

/-- Fisher-Yates shuffle with a seeded generator; the input list is not
mutated, the loop runs on a private copy. -/
def seededShuffle (items : List α) (seed : Int) : List α :=
  fyLoop items (toUint32 seed) (items.length - 1)

/-- Card record consumed by the engine; `color` and `symbol` are optional
attributes (`none` embeds an absent field). -/
structure Card where
  id : String
  text_en : String
  text_es : String
  color : Option String
  symbol : Option String
deriving DecidableEq

/-- State produced by `createDrawState`; `remaining` and `exhausted` are
getters recomputed from `index` and `total` on every read, embedded as the
functions below. -/
structure DrawState where
  order : List Card
  index : Nat
  total : Nat
deriving DecidableEq

/-- Getter `remaining`, computing `total - index` with JavaScript number
subtraction. -/
def DrawState.remaining (st : DrawState) : Int :=
  (st.total : Int) - (st.index : Int)

/-- Getter `exhausted`, computing `index >= total`. -/
def DrawState.exhausted (st : DrawState) : Bool :=
  decide (st.index ≥ st.total)

/-- Build a draw state from a list of cards and a seed: shuffle the cards,
start the cursor at `0`, record the length. -/
def createDrawState (cards : List Card) (seed : Int) : DrawState :=
  let order := seededShuffle cards seed
  { order := order, index := 0, total := order.length }

/-- Draw the next card: when `index >= total` return `null` (embedded as
`none`) and leave the state alone, otherwise return `order[index]` and
increment the cursor.  The updated state is returned explicitly in place
of the source's in-place mutation of `index`. -/
def drawNext (st : DrawState) : Option Card × DrawState :=
  if st.index ≥ st.total then (none, st)
  else (st.order[st.index]?, { st with index := st.index + 1 })

/-- Results and final state of `n` successive `drawNext` calls. -/
def drawMany : DrawState → Nat → List (Option Card) × DrawState
  | st, 0 => ([], st)
  | st, n + 1 =>
    ((drawNext st).1 :: (drawMany (drawNext st).2 n).1,
      (drawMany (drawNext st).2 n).2)

/-- Optional filter criteria; a `none` component embeds an absent field. -/
structure CardFilter where
  color : Option String
  symbol : Option String
deriving DecidableEq

/-- Truthiness test applied by `filterCards` to an optional string field:
`undefined` and the empty string are falsy, every other string is truthy. -/
def strTruthy : Option String → Bool
  | none => false
  | some s => !(s == "")

/-- Filter cards by color and/or symbol: with no filter return the input
list itself, otherwise keep a card unless a truthy criterion disagrees
with the corresponding attribute. -/
def filterCards (cards : List Card) (f : Option CardFilter) : List Card :=
  match f with
  | none => cards
  | some fl =>
    cards.filter fun card =>
      if strTruthy fl.color && !(card.color == fl.color) then false
      else if strTruthy fl.symbol && !(card.symbol == fl.symbol) then false
      else true

/-- Truncation toward zero of a rational number, the first step of the
`ToInt32` coercion that `seed | 0` applies to a non-integer seed. -/
def ratTrunc (q : ℚ) : Int := Int.tdiv q.num (q.den : Int)

/-- Unsigned bit pattern `ToInt32` assigns to an arbitrary (possibly
non-integer) numeric seed. -/
def toUint32Q (q : ℚ) : Nat := ((ratTrunc q) % (U32 : Int)).toNat

/-- Signed 32-bit integer `ToInt32` assigns to an arbitrary numeric seed. -/
def toInt32Q (q : ℚ) : Int :=
  let m := (ratTrunc q) % (U32 : Int)
  if m < 2147483648 then m else m - (U32 : Int)

/-- The shuffle as invoked with an arbitrary numeric seed, which `seed | 0`
coerces through `ToInt32` before use. -/
def seededShuffleQ (items : List α) (seed : ℚ) : List α :=
  fyLoop items (toUint32Q seed) (items.length - 1)

theorem mulberry_first_value_seed_zero : (mulberryNext 0).1 = 1144304738 := by
  decide

theorem shuffle_sample_seed_42 : seededShuffle [0, 1, 2, 3, 4] 42 = [0, 4, 2, 1, 3] := by
  decide

theorem shuffle_sample_seed_zero :
    seededShuffle (["a", "b"] : List String) 0 = ["b", "a"] := by
  decide

theorem U32_eq : U32 = 2 ^ 32 := by norm_num [U32]

theorem U32_pos : 0 < U32 := by norm_num [U32]

theorem mod_U32_lt (a : Nat) : a % U32 < U32 := Nat.mod_lt _ U32_pos

theorem xor_U32_lt (a b : Nat) (ha : a < U32) (hb : b < U32) : a ^^^ b < U32 := by
  rw [U32_eq] at ha hb ⊢
  exact Nat.xor_lt_two_pow ha hb

theorem shiftRight_U32_lt (a k : Nat) (ha : a < U32) : a >>> k < U32 := by
  rw [Nat.shiftRight_eq_div_pow]
  exact Nat.lt_of_le_of_lt (Nat.div_le_self _ _) ha

theorem mulberryNext_fst_lt (s : Nat) : (mulberryNext s).1 < U32 := by
  simp only [mulberryNext]
  exact xor_U32_lt _ _ (xor_U32_lt _ _ (mod_U32_lt _) (mod_U32_lt _))
    (shiftRight_U32_lt _ _ (xor_U32_lt _ _ (mod_U32_lt _) (mod_U32_lt _)))

theorem mem_mulberryStream_lt (n : Nat) :
    ∀ (s v : Nat), v ∈ mulberryStream s n → v < U32 := by
  induction n with
  | zero => intro s v hv; simp [mulberryStream] at hv
  | succ k ih =>
    intro s v hv
    simp only [mulberryStream, List.mem_cons] at hv
    rcases hv with h | h
    · exact h ▸ mulberryNext_fst_lt s
    · exact ih _ _ h

theorem floor_mul_div_le (v i : Nat) (hv : v < U32) : v * (i + 1) / U32 ≤ i := by
  have hdiv : v * (i + 1) / U32 < i + 1 :=
    Nat.div_lt_of_lt_mul ((Nat.mul_lt_mul_right (Nat.succ_pos i)).mpr hv)
  omega

theorem cons_set_perm : ∀ (xs : List α) (k : Nat) (x b : α), xs[k]? = some b →
    (b :: xs.set k x).Perm (x :: xs) := by
  intro xs
  induction xs with
  | nil => intro k x b h; simp at h
  | cons y ys ih =>
    intro k x b h
    cases k with
    | zero =>
      simp only [List.getElem?_cons_zero, Option.some.injEq] at h
      subst h
      simpa using List.Perm.swap x y ys
    | succ m =>
      simp only [List.getElem?_cons_succ] at h
      simp only [List.set_cons_succ]
      exact List.Perm.trans (List.Perm.swap y b (ys.set m x))
        (List.Perm.trans (List.Perm.cons y (ih m x b h)) (List.Perm.swap x y ys))

theorem set_set_perm : ∀ (l : List α) (i j : Nat) (a b : α),
    l[i]? = some a → l[j]? = some b → ((l.set i b).set j a).Perm l := by
  intro l
  induction l with
  | nil => intro i j a b h1 _; simp at h1
  | cons x xs ih =>
    intro i j a b h1 h2
    cases i with
    | zero =>
      simp only [List.getElem?_cons_zero, Option.some.injEq] at h1
      subst h1
      cases j with
      | zero =>
        simp only [List.getElem?_cons_zero, Option.some.injEq] at h2
        subst h2
        simp
      | succ m =>
        simp only [List.getElem?_cons_succ] at h2
        simpa using cons_set_perm xs m x b h2
    | succ k =>
      simp only [List.getElem?_cons_succ] at h1
      cases j with
      | zero =>
        simp only [List.getElem?_cons_zero, Option.some.injEq] at h2
        subst h2
        simpa using cons_set_perm xs k x a h1
      | succ m =>
        simp only [List.getElem?_cons_succ] at h2
        simpa using List.Perm.cons x (ih k m a b h1 h2)

theorem listSwap_perm (l : List α) (i j : Nat) : (listSwap l i j).Perm l := by
  unfold listSwap
  cases h1 : l[i]? with
  | none => exact List.Perm.refl l
  | some a =>
    cases h2 : l[j]? with
    | none => exact List.Perm.refl l
    | some b => exact set_set_perm l i j a b h1 h2

theorem fyLoop_perm : ∀ (c : Nat) (l : List α) (s : Nat), (fyLoop l s c).Perm l := by
  intro c
  induction c with
  | zero => intro l s; exact List.Perm.refl l
  | succ k ih =>
    intro l s
    exact List.Perm.trans (ih _ _) (listSwap_perm l (k + 1) _)

theorem seededShuffle_perm (items : List α) (seed : Int) :
    (seededShuffle items seed).Perm items :=
  fyLoop_perm _ _ _

theorem drawNext_of_lt (st : DrawState) (h : st.index < st.total) :
    drawNext st = (st.order[st.index]?, { st with index := st.index + 1 }) := by
  rw [drawNext, if_neg (Nat.not_le.mpr h)]

theorem drawNext_of_ge (st : DrawState) (h : st.total ≤ st.index) :
    drawNext st = (none, st) := by
  rw [drawNext, if_pos h]

theorem drawMany_snd (k : Nat) : ∀ (st : DrawState), st.index ≤ st.total →
    (drawMany st k).2 =
      { order := st.order, index := min (st.index + k) st.total,
        total := st.total } := by
  induction k with
  | zero =>
    intro st h
    simp only [drawMany]
    simp [Nat.min_eq_left h]
  | succ n ih =>
    intro st h
    simp only [drawMany]
    by_cases hlt : st.index < st.total
    · simp only [drawNext_of_lt st hlt]
      rw [ih { st with index := st.index + 1 } hlt]
      simp only [DrawState.mk.injEq]
      refine ⟨trivial, by omega, trivial⟩
    · have hge : st.total ≤ st.index := Nat.not_lt.mp hlt
      simp only [drawNext_of_ge st hge]
      rw [ih st h]
      simp only [DrawState.mk.injEq]
      refine ⟨trivial, by omega, trivial⟩

theorem drawMany_fst (k : Nat) : ∀ (st : DrawState), st.total = st.order.length →
    st.index + k ≤ st.total →
    (drawMany st k).1 = ((st.order.drop st.index).take k).map some := by
  induction k with
  | zero => intro st h1 h2; simp [drawMany]
  | succ n ih =>
    intro st h1 h2
    have hlt : st.index < st.total := by omega
    have hlen : st.index < st.order.length := by omega
    simp only [drawMany, drawNext_of_lt st hlt]
    rw [ih { st with index := st.index + 1 } h1 (by simp; omega)]
    rw [List.getElem?_eq_getElem hlen]
    rw [List.drop_eq_getElem_cons hlen, List.take_succ_cons, List.map_cons]

/-- C1: for every finite input list and every seed, `seededShuffle` returns a
permutation of the input (same length, same multiset); in particular the
shuffle of the empty list is empty and the shuffle of a one-element list is
that same one-element list, for any seed. -/
theorem seededShuffle_permutation (items : List α) (seed : Int) (x : α) :
    (seededShuffle items seed).Perm items ∧
    (seededShuffle items seed).length = items.length ∧
    seededShuffle ([] : List α) seed = [] ∧
    seededShuffle [x] seed = [x] :=
  ⟨seededShuffle_perm items seed, (seededShuffle_perm items seed).length_eq,
    rfl, rfl⟩

/-- C4: shuffling equal inputs with equal seeds yields identical outputs, and
the generator seeded alike yields an identical value stream, for any number
of draws. -/
theorem seededShuffle_deterministic (items₁ items₂ : List α) (s₁ s₂ : Int)
    (n : Nat) (hitems : items₁ = items₂) (hseed : s₁ = s₂) :
    seededShuffle items₁ s₁ = seededShuffle items₂ s₂ ∧
    mulberryStream (toUint32 s₁) n = mulberryStream (toUint32 s₂) n := by
  subst hitems hseed
  exact ⟨rfl, rfl⟩

/-- Witness for C4 at a concrete list, seed and stream length. -/
theorem seededShuffle_deterministic_witness :
    seededShuffle [0, 1, 2] 42 = seededShuffle [0, 1, 2] 42 ∧
    mulberryStream (toUint32 42) 5 = mulberryStream (toUint32 42) 5 :=
  seededShuffle_deterministic [0, 1, 2] [0, 1, 2] 42 42 5 rfl rfl

/-- C6: on any exhausted state (cursor at or past the total, in particular the
state built from an empty card list) `drawNext` returns the absence value
`none` as an ordinary result and leaves the state unchanged. -/
theorem drawNext_exhausted_noop (st : DrawState) (seed : Int)
    (h : st.total ≤ st.index) :
    drawNext st = (none, st) ∧
    drawNext (createDrawState [] seed) = (none, createDrawState [] seed) :=
  ⟨drawNext_of_ge st h, drawNext_of_ge _ (Nat.le_refl 0)⟩

/-- Witness for C6 at a concrete exhausted state and seed. -/
theorem drawNext_exhausted_noop_witness :
    drawNext { order := [], index := 3, total := 2 } =
      (none, { order := [], index := 3, total := 2 }) ∧
    drawNext (createDrawState [] 7) = (none, createDrawState [] 7) :=
  drawNext_exhausted_noop { order := [], index := 3, total := 2 } 7 (by decide)

theorem drawNext_preserves (st : DrawState) :
    (drawNext st).2.order = st.order ∧ (drawNext st).2.total = st.total := by
  unfold drawNext
  split <;> simp

theorem decide_le_mono {p q : Prop} [Decidable p] [Decidable q] (h : p → q) :
    decide p ≤ decide q := by
  by_cases hp : p <;> simp [hp, h]

/-- C2: from `createDrawState(cards, seed)` with `N = cards.length`, the first
`N` calls to `drawNext` return exactly the shuffled order, one card each (all
ids distinct when the input ids are distinct); after `k` draws `remaining`
equals `N - k` and `exhausted` holds exactly when `k = N`; the `(N+1)`-th call
returns the absence value `none`. -/
theorem drawState_draw_sequence (cards : List Card) (seed : Int) (k : Nat)
    (hk : k ≤ cards.length) (hnodup : (cards.map Card.id).Nodup) :
    (drawMany (createDrawState cards seed) cards.length).1
      = (createDrawState cards seed).order.map some ∧
    ((createDrawState cards seed).order.map Card.id).Nodup ∧
    (drawMany (createDrawState cards seed) k).2.remaining
      = (cards.length : Int) - (k : Int) ∧
    (drawMany (createDrawState cards seed) k).2.exhausted
      = decide (k = cards.length) ∧
    (drawNext (drawMany (createDrawState cards seed) cards.length).2).1
      = none := by
  have hperm := seededShuffle_perm cards seed
  have hlen : (seededShuffle cards seed).length = cards.length := hperm.length_eq
  have horder : (createDrawState cards seed).order = seededShuffle cards seed :=
    rfl
  have hidx : (createDrawState cards seed).index = 0 := rfl
  have htot : (createDrawState cards seed).total
      = (seededShuffle cards seed).length := rfl
  have h0 : (createDrawState cards seed).index
      ≤ (createDrawState cards seed).total := Nat.zero_le _
  refine ⟨?_, ?_, ?_, ?_, ?_⟩
  · rw [drawMany_fst cards.length _ rfl (by rw [hidx, htot, hlen]; omega)]
    rw [hidx, List.drop_zero, horder, ← hlen, List.take_length]
  · rw [horder]
    exact ((hperm.map Card.id).nodup_iff).mpr hnodup
  · rw [drawMany_snd k _ h0]
    simp only [DrawState.remaining]
    rw [hidx, htot, hlen]
    omega
  · rw [drawMany_snd k _ h0]
    simp only [DrawState.exhausted]
    rw [hidx, htot, hlen]
    exact decide_eq_decide.mpr (by omega)
  · rw [drawMany_snd cards.length _ h0]
    rw [drawNext_of_ge _ (by simp only [hidx, htot, hlen]; omega)]

/-- Concrete cards used by witnesses and counterexamples. -/
def cardA : Card :=
  { id := "a", text_en := "A", text_es := "A", color := none, symbol := none }

/-- Second concrete card, distinct id from `cardA`. -/
def cardB : Card :=
  { id := "b", text_en := "B", text_es := "B", color := none, symbol := none }

/-- Witness for C2 at a concrete two-card deck, seed `0` and `k = 1`. -/
theorem drawState_draw_sequence_witness :
    (drawMany (createDrawState [cardA, cardB] 0)
        ([cardA, cardB] : List Card).length).1
      = (createDrawState [cardA, cardB] 0).order.map some ∧
    ((createDrawState [cardA, cardB] 0).order.map Card.id).Nodup ∧
    (drawMany (createDrawState [cardA, cardB] 0) 1).2.remaining
      = (([cardA, cardB] : List Card).length : Int) - (1 : Int) ∧
    (drawMany (createDrawState [cardA, cardB] 0) 1).2.exhausted
      = decide (1 = ([cardA, cardB] : List Card).length) ∧
    (drawNext (drawMany (createDrawState [cardA, cardB] 0)
        ([cardA, cardB] : List Card).length).2).1 = none :=
  drawState_draw_sequence [cardA, cardB] 0 1 (by decide) (by decide)

/-- C5: every state reachable by `k` draws keeps `index ≤ total`, keeps the
construction-time `order` (a permutation of the input cards) and `total`
(`drawNext` changes only the cursor), and `exhausted` never reverts to false
on any later reachable state. -/
theorem drawState_invariants (cards : List Card) (seed : Int) (k m : Nat) :
    (drawMany (createDrawState cards seed) k).2.index
      ≤ (drawMany (createDrawState cards seed) k).2.total ∧
    (drawMany (createDrawState cards seed) k).2.order
      = (createDrawState cards seed).order ∧
    (drawMany (createDrawState cards seed) k).2.total
      = (createDrawState cards seed).total ∧
    (drawMany (createDrawState cards seed) k).2.order.Perm cards ∧
    (drawNext (drawMany (createDrawState cards seed) k).2).2.order
      = (drawMany (createDrawState cards seed) k).2.order ∧
    (drawNext (drawMany (createDrawState cards seed) k).2).2.total
      = (drawMany (createDrawState cards seed) k).2.total ∧
    (drawMany (createDrawState cards seed) k).2.exhausted
      ≤ (drawMany (createDrawState cards seed) (k + m)).2.exhausted := by
  have h0 : (createDrawState cards seed).index
      ≤ (createDrawState cards seed).total := Nat.zero_le _
  refine ⟨?_, ?_, ?_, ?_, (drawNext_preserves _).1, (drawNext_preserves _).2, ?_⟩
  · rw [drawMany_snd k _ h0]
    exact Nat.min_le_right _ _
  · rw [drawMany_snd k _ h0]
  · rw [drawMany_snd k _ h0]
  · rw [drawMany_snd k _ h0]
    exact seededShuffle_perm cards seed
  · rw [drawMany_snd k _ h0, drawMany_snd (k + m) _ h0]
    simp only [DrawState.exhausted]
    exact decide_le_mono (by omega)

/-- C7: with no filter argument, and with a filter object having neither
criterion present, `filterCards` returns the input list unchanged. -/
theorem filterCards_identity (cards : List Card) :
    filterCards cards none = cards ∧
    filterCards cards (some { color := none, symbol := none }) = cards := by
  constructor
  · rfl
  · simp [filterCards, strTruthy]

/-- C10: a present but empty-string criterion is falsy, so it imposes no
restriction: it behaves exactly like an absent criterion, and with the other
criterion absent the filter is the identity. -/
theorem filterCards_empty_string_criterion (cards : List Card)
    (co sy : Option String) :
    filterCards cards (some { color := some "", symbol := sy })
      = filterCards cards (some { color := none, symbol := sy }) ∧
    filterCards cards (some { color := co, symbol := some "" })
      = filterCards cards (some { color := co, symbol := none }) ∧
    filterCards cards (some { color := some "", symbol := none }) = cards ∧
    filterCards cards (some { color := none, symbol := some "" }) = cards := by
  refine ⟨?_, ?_, ?_, ?_⟩ <;> simp [filterCards, strTruthy]

/-- Concrete card carrying no color attribute. -/
def cardNoColor : Card :=
  { id := "x", text_en := "X", text_es := "X", color := none, symbol := none }

/-- Counterexample to C3 as stated: with the color criterion present but equal
to the empty string, `filterCards` does not return exactly the cards whose
color equals that value — it keeps a card whose color is absent. -/
theorem filterCards_present_color_counterexample :
    filterCards [cardNoColor] (some { color := some "", symbol := none })
      ≠ [cardNoColor].filter (fun c => c.color == some "") := by decide

theorem filterPred_eq (c : Card) (co sy : Option String)
    (hco : co ≠ some "") (hsy : sy ≠ some "") :
    (if strTruthy co && !(c.color == co) then false
     else if strTruthy sy && !(c.symbol == sy) then false else true)
    = ((co.all fun s => c.color == some s)
        && (sy.all fun s => c.symbol == some s)) := by
  cases co with
  | none =>
    cases sy with
    | none => simp [strTruthy]
    | some t =>
      have ht : (t == "") = false :=
        beq_eq_false_iff_ne.mpr (fun h => hsy (by rw [h]))
      simp only [strTruthy, ht, Bool.not_false, Bool.true_and, Option.all_none,
        Option.all_some, Bool.true_and]
      cases hx : c.symbol == some t <;> simp [hx]
  | some s =>
    have hs : (s == "") = false :=
      beq_eq_false_iff_ne.mpr (fun h => hco (by rw [h]))
    cases sy with
    | none =>
      simp only [strTruthy, hs, Bool.not_false, Bool.true_and, Option.all_none,
        Option.all_some, Bool.and_true]
      cases hx : c.color == some s <;> simp [hx]
    | some t =>
      have ht : (t == "") = false :=
        beq_eq_false_iff_ne.mpr (fun h => hsy (by rw [h]))
      simp only [strTruthy, hs, ht, Bool.not_false, Bool.true_and,
        Option.all_some]
      cases hx : c.color == some s <;> cases hy : c.symbol == some t <;>
        simp [hx, hy]

/-- C3 (amended): for every card list and filter whose present criteria are
non-empty, `filterCards` keeps exactly the cards whose attributes equal the
present criteria (case-sensitive, absent attributes never match, both
criteria combined by logical AND), in original relative order. -/
theorem filterCards_matches_criteria (cards : List Card) (co sy : Option String)
    (hco : co ≠ some "") (hsy : sy ≠ some "") :
    filterCards cards (some { color := co, symbol := sy })
      = cards.filter (fun c =>
          (co.all fun s => c.color == some s)
            && (sy.all fun s => c.symbol == some s)) := by
  unfold filterCards
  exact List.filter_congr (fun c _ => filterPred_eq c co sy hco hsy)

/-- Concrete red card for the C3 witness. -/
def cardRed : Card :=
  { id := "1", text_en := "A", text_es := "A", color := some "red",
    symbol := none }

/-- Concrete blue card for the C3 witness. -/
def cardBlue : Card :=
  { id := "2", text_en := "B", text_es := "B", color := some "blue",
    symbol := none }

/-- Witness for the amended C3 at a concrete deck and the filter
`{color: "red"}`. -/
theorem filterCards_matches_criteria_witness :
    filterCards [cardRed, cardBlue, cardNoColor]
        (some { color := some "red", symbol := none })
      = [cardRed, cardBlue, cardNoColor].filter (fun c =>
          ((some "red" : Option String).all fun s => c.color == some s)
            && ((none : Option String).all fun s => c.symbol == some s)) :=
  filterCards_matches_criteria [cardRed, cardBlue, cardNoColor]
    (some "red") none (by decide) (by decide)

theorem ratTrunc_intCast (z : Int) : ratTrunc ((z : ℚ)) = z := by
  simp [ratTrunc]

theorem toUint32Q_intCast (z : Int) : toUint32Q ((z : ℚ)) = toUint32 z := by
  simp [toUint32Q, toUint32, ratTrunc_intCast]

theorem toUint32Q_toInt32Q (q : ℚ) :
    toUint32Q ((toInt32Q q : ℚ)) = toUint32Q q := by
  simp only [toUint32Q, toInt32Q, ratTrunc_intCast, U32]
  split <;> omega

/-- C8: the engine accepts any numeric seed and deterministically truncates it
to a 32-bit integer: a seed shuffles exactly like its `ToInt32` truncation,
two seeds with the same 32-bit truncation shuffle identically, and on integer
seeds the coerced shuffle agrees with the integer-seed shuffle. -/
theorem seededShuffle_seed_coercion (items : List α) (q r : ℚ) (n : Int)
    (h : toUint32Q q = toUint32Q r) :
    seededShuffleQ items q = seededShuffleQ items ((toInt32Q q : ℚ)) ∧
    seededShuffleQ items q = seededShuffleQ items r ∧
    seededShuffleQ items ((n : ℚ)) = seededShuffle items n := by
  refine ⟨?_, ?_, ?_⟩
  · unfold seededShuffleQ
    rw [toUint32Q_toInt32Q]
  · unfold seededShuffleQ
    rw [h]
  · unfold seededShuffleQ seededShuffle
    rw [toUint32Q_intCast]

/-- The non-integer rational 7/2, built from raw numerator and denominator so
witnesses can evaluate it. -/
def seedQ : ℚ := ⟨7, 2, by norm_num, by norm_num⟩

/-- Witness for C8 at the non-integer seed `7/2` (truncating to `3`) and the
integer seed `3`. -/
theorem seededShuffle_seed_coercion_witness :
    seededShuffleQ [10, 20] seedQ
      = seededShuffleQ [10, 20] ((toInt32Q seedQ : Int) : ℚ) ∧
    seededShuffleQ [10, 20] seedQ = seededShuffleQ [10, 20] (3 : ℚ) ∧
    seededShuffleQ [10, 20] (((5 : Int) : ℚ)) = seededShuffle [10, 20] 5 :=
  seededShuffle_seed_coercion [10, 20] seedQ (3 : ℚ) 5 (by decide)

/-- C9: every generator value has numerator below `2 ^ 32`, so as a rational
it lies in `[0, 1)`; hence each drawn index `j = floor(rng() * (i + 1))`
satisfies `j ≤ i`, and both positions touched by a swap of the shuffle are in
bounds. -/
theorem generator_output_range (l : List α) (s n i v : Nat)
    (hv : v ∈ mulberryStream s n) (hi : i < l.length) :
    v < U32 ∧
    (0 : ℚ) ≤ (v : ℚ) / (U32 : ℚ) ∧
    (v : ℚ) / (U32 : ℚ) < 1 ∧
    v * (i + 1) / U32 ≤ i ∧
    (l[i]?).isSome = true ∧
    (l[v * (i + 1) / U32]?).isSome = true := by
  have hvU := mem_mulberryStream_lt n s v hv
  have hj := floor_mul_div_le v i hvU
  have hU0 : (0 : ℚ) < (U32 : ℚ) := by norm_num [U32]
  refine ⟨hvU, ?_, ?_, hj, ?_, ?_⟩
  · exact div_nonneg (Nat.cast_nonneg v) (le_of_lt hU0)
  · rw [div_lt_one hU0]
    exact_mod_cast hvU
  · rw [List.getElem?_eq_getElem hi]
    rfl
  · rw [List.getElem?_eq_getElem (show v * (i + 1) / U32 < l.length by omega)]
    rfl

/-- Witness for C9 at the first value of the seed-`0` stream and a one-element
list. -/
theorem generator_output_range_witness :
    (1144304738 : Nat) < U32 ∧
    (0 : ℚ) ≤ (1144304738 : ℚ) / (U32 : ℚ) ∧
    ((1144304738 : Nat) : ℚ) / (U32 : ℚ) < 1 ∧
    1144304738 * (0 + 1) / U32 ≤ 0 ∧
    (([0] : List Nat)[0]?).isSome = true ∧
    (([0] : List Nat)[1144304738 * (0 + 1) / U32]?).isSome = true :=
  generator_output_range [0] 0 1 0 1144304738 (by decide) (by decide)
